import Mathlib

/-!
Verification of the pokerd poker-server core (`pokerd.py`).

This file shallowly embeds the data model and the pure/state-passing parts of
the program: cards and the 52-card deck (`PokerCard`, `PokerDeck`), the hand
scorer (`score_hand`), the dealer state and its roster operations
(`PokerDealer.add_player`, `PokerDealer.reset`), the response-reading loop
(`read_response`) and the fold/call decision (`wait_for_call_state`), and the
per-connection dispatch loop specialised to a single remaining player
(`soloStep`).  Randomness (`random.shuffle`) is modelled by an explicit
permutation oracle argument; network I/O is dropped, keeping only the data it
carries (response lines).  Theorems about each spec claim follow the
definitions.
-/

/-- The four suit symbols of `PokerCard` (HEARTS, DIAMONDS, SPADES, CLUBS). -/
inductive Suit where
  | hearts
  | diamonds
  | spades
  | clubs
deriving DecidableEq, Repr

/-- `PokerCard`: a rank (2–14; 11–14 display as J/Q/K/A) and a suit.
Ranking uses the integer rank only. -/
structure PokerCard where
  rank : Nat
  suit : Suit
deriving DecidableEq, Repr

/-- The phase enumeration `PokerState` from the source. -/
inductive PokerState where
  | LOBBY
  | TABLE
  | HAND
  | BETH
  | FLOP
  | BETF
  | TURN
  | BETT
  | RIVER
  | BETR
  | FOLD
  | SCORE
  | QUIT
deriving DecidableEq, Repr

namespace PokerDeck

/-- The deck built by `PokerDeck.shuffle` before randomisation: for each suit
(hearts, diamonds, spades, clubs) the ranks `range(2, 15)` in order. -/
def fresh : List PokerCard :=
  [Suit.hearts, Suit.diamonds, Suit.spades, Suit.clubs].flatMap
    (fun s => (List.range 13).map (fun i => ⟨i + 2, s⟩))

/-- `PokerDeck.shuffle`: rebuilds the full deck and randomises it.  The call to
`random.shuffle` is modelled by the permutation oracle `σ`; theorems assume
`σ l` is a permutation of `l`, which is `random.shuffle`'s contract. -/
def shuffle (σ : List PokerCard → List PokerCard) : List PokerCard :=
  σ fresh

/-- `PokerDeck.deal`: `self.cards.pop()` removes and returns the last card;
`none` models the `IndexError` on an empty deck (DeckExhausted). -/
def deal? (cards : List PokerCard) : Option (PokerCard × List PokerCard) :=
  match cards.getLast? with
  | none => none
  | some c => some (c, cards.dropLast)

/-- `n` successive `deal()` calls: the list of dealt cards and the remaining
deck (stopping early if the deck empties). -/
def dealMany : Nat → List PokerCard → List PokerCard × List PokerCard
  | 0, cards => ([], cards)
  | n + 1, cards =>
    match deal? cards with
    | none => ([], cards)
    | some (c, rest) =>
      let p := dealMany n rest
      (c :: p.1, p.2)

end PokerDeck

/-! ## The hand scorer `score_hand` -/

/-- Private-hand ranks, sorted ascending (`ranks = sorted(c.rank for c in hand)`). -/
def handRanks (hand : List PokerCard) : List Nat :=
  List.insertionSort (· ≤ ·) (hand.map PokerCard.rank)

/-- Private-hand suits (`suits = [c.suit for c in hand]`). -/
def handSuits (hand : List PokerCard) : List Suit :=
  hand.map PokerCard.suit

/-- Ranks of the combined pool `hand + table`. -/
def poolRanks (hand table : List PokerCard) : List Nat :=
  (hand ++ table).map PokerCard.rank

/-- Suits of the combined pool `hand + table`. -/
def poolSuits (hand table : List PokerCard) : List Suit :=
  (hand ++ table).map PokerCard.suit

/-- Sorted pool ranks, duplicates kept (`all_ranks = sorted(...)`). -/
def allRanks (hand table : List PokerCard) : List Nat :=
  List.insertionSort (· ≤ ·) (poolRanks hand table)

/-- Body of one iteration of the multiples loop in `score_hand`, for a rank of
`rank_counts` (state: current `score`, `pair_counts`, `three_counts`).  The
count of `rank` is its multiplicity in the pool, as in the `Counter`. -/
def multiplesBody (pool : List Nat) (st : Nat × Nat × Nat) (rank : Nat) :
    Nat × Nat × Nat :=
  if pool.count rank = 2 then
    ((if st.2.1 = 0 then 20 + rank else 40 + rank), st.2.1 + 1, st.2.2)
  else if pool.count rank = 3 then
    ((if st.2.1 = 0 ∧ st.2.2 = 0 then 60 + rank else 120 + rank),
      st.2.1, st.2.2 + 1)
  else if pool.count rank = 4 then
    (140 + rank, st.2.1, st.2.2)
  else st

/-- One iteration of the multiples loop including the guard
`if rank in ranks` (`# Note: disregard combos from only the table`). -/
def multiplesStep (ranks pool : List Nat) (st : Nat × Nat × Nat) (rank : Nat) :
    Nat × Nat × Nat :=
  if rank ∈ ranks then multiplesBody pool st rank else st

/-- The whole multiples loop: iterate `sorted(rank_counts.items())`, i.e. the
distinct pool ranks in ascending order, starting from the high-card score. -/
def multiplesFold (ranks pool : List Nat) (score : Nat) : Nat :=
  (((List.insertionSort (· ≤ ·) pool).dedup).foldl
    (multiplesStep ranks pool) (score, 0, 0)).1

/-- The straight test at window `base`: the five sorted pool ranks
`all_ranks[base..base+4]` have adjacent differences not exceeding 1, and at
least one of the five is a private-hand rank (`in_ranks`). -/
def straightAt (allR ranks : List Nat) (base : Nat) : Bool :=
  ((List.range 4).all
    (fun i => decide (allR.getD (base + i + 1) 0 - allR.getD (base + i) 0 ≤ 1)))
  && ((List.range 5).any (fun i => decide (allR.getD (base + i) 0 ∈ ranks)))

/-- The straight loop: for each `base` in `range(0, len(all_ranks) - 4)`, if
the window qualifies, overwrite the score with `80 + all_ranks[base + 4]`. -/
def straightFold (allR ranks : List Nat) (score : Nat) : Nat :=
  (List.range (allR.length - 4)).foldl
    (fun s base =>
      if straightAt allR ranks base then 80 + allR.getD (base + 4) 0 else s)
    score

/-- Whether some window qualifies in the straight loop. -/
def straightQualifies (hand table : List PokerCard) : Bool :=
  (List.range ((allRanks hand table).length - 4)).any
    (straightAt (allRanks hand table) (handRanks hand))

/-- The flush loop: for each distinct pool suit (in first-occurrence order,
as `Counter.items()` iterates), if it occurs in the private hand and its pool
count is at least 5, overwrite the score with the flat value 100. -/
def flushFold (suits pool : List Suit) (score : Nat) : Nat :=
  pool.dedup.foldl
    (fun s x => if x ∈ suits ∧ 5 ≤ pool.count x then 100 else s) score

/-- `score_hand(hand, table)`: high card, then the multiples loop, then the
straight loop, then the flush loop, each later matching check overwriting the
score.  (`ranks[-1]` on an empty hand is a Python `IndexError`; the `getLastD 0`
default is never used for the 2-card hands the program deals.) -/
def score_hand (hand table : List PokerCard) : Nat :=
  flushFold (handSuits hand) (poolSuits hand table)
    (straightFold (allRanks hand table) (handRanks hand)
      (multiplesFold (handRanks hand) (poolRanks hand table)
        ((handRanks hand).getLastD 0)))

/-- The multiples loop restricted, as the spec words it, to the pool ranks
that occur in the private hand; the loop body carries no membership guard. -/
def privateMultiples (ranks pool : List Nat) (score : Nat) : Nat :=
  ((((List.insertionSort (· ≤ ·) pool).dedup).filter
      (fun r => decide (r ∈ ranks))).foldl
    (multiplesBody pool) (score, 0, 0)).1

/-- The flush loop restricted, as the spec words it, to the pool suits that
occur in the private hand; the loop body carries no membership guard. -/
def privateFlush (suits pool : List Suit) (score : Nat) : Nat :=
  (pool.dedup.filter (fun x => decide (x ∈ suits))).foldl
    (fun sc x => if 5 ≤ pool.count x then 100 else sc) score

/-- Refinement comparison point, following the spec's words: "Only ranks/suits
present in the calling player's private hand count toward qualifying a
category".  Identical to `score_hand` except that the multiples loop iterates
only over the pool ranks that occur in the private hand and the flush loop
only over the pool suits that occur in the private hand. -/
def score_hand_private (hand table : List PokerCard) : Nat :=
  privateFlush (handSuits hand) (poolSuits hand table)
    (straightFold (allRanks hand table) (handRanks hand)
      (privateMultiples (handRanks hand) (poolRanks hand table)
        ((handRanks hand).getLastD 0)))

/-! ## Dealer and player state -/

/-- The per-connection `PokerPlayer` state that the claims are about: the
private hand, the local phase cursor and the win counter.  (The reader/writer
handles, address and display name are connection I/O and carry no game
state.) -/
structure PokerPlayer where
  hand : List PokerCard
  state : PokerState
  wins : Nat
deriving DecidableEq, Repr

/-- The shared `PokerDealer` state: phase, seated players, deck and community
cards (`self.table`). -/
structure PokerDealer where
  state : PokerState
  players : List PokerPlayer
  deck : List PokerCard
  table : List PokerCard
deriving DecidableEq, Repr

/-- `PokerDealer.MINIMUM_PLAYERS`. -/
def MINIMUM_PLAYERS : Nat := 2

/-- `PokerDealer.add_player`: append the player; with fewer than
`MINIMUM_PLAYERS` seated go to TABLE, otherwise go to HAND, clear every seated
player's hand and reshuffle the deck (shuffle oracle `σ`, see
`PokerDeck.shuffle`). -/
def PokerDealer.add_player (σ : List PokerCard → List PokerCard)
    (d : PokerDealer) (p : PokerPlayer) : PokerDealer :=
  if (d.players ++ [p]).length < MINIMUM_PLAYERS then
    { d with players := d.players ++ [p], state := PokerState.TABLE }
  else
    { d with
      players := (d.players ++ [p]).map (fun q => { q with hand := [] }),
      state := PokerState.HAND,
      deck := PokerDeck.shuffle σ }

/-- `PokerDealer.remove_player`: drop the first occurrence of the player; an
empty roster returns the dealer to LOBBY. -/
def PokerDealer.remove_player (d : PokerDealer) (p : PokerPlayer) : PokerDealer :=
  let players := d.players.erase p
  if players = [] then
    { d with players := players, state := PokerState.LOBBY }
  else
    { d with players := players }

/-- `PokerDealer.reset`: from any non-LOBBY phase, return to LOBBY and clear
the player roster (and nothing else). -/
def PokerDealer.reset (d : PokerDealer) : PokerDealer :=
  if d.state ≠ PokerState.LOBBY then
    { d with state := PokerState.LOBBY, players := [] }
  else d

/-! ## Scoring a finished round (`PokerPlayer.score_hands`) -/

/-- `winner_score` as computed in `score_hands`: the running maximum, starting
at 0, of every remaining player's `score_hand` against the community cards. -/
def winner_score (players : List PokerPlayer) (table : List PokerCard) : Nat :=
  players.foldl (fun acc q => max acc (score_hand q.hand table)) 0

/-- The wins counter of `self` after `score_hands` runs: incremented exactly
when `winner_score == score_hand(self.hand, self.dealer.table)`. -/
def score_hands_wins (self : PokerPlayer) (players : List PokerPlayer)
    (table : List PokerCard) : Nat :=
  if winner_score players table = score_hand self.hand table then
    self.wins + 1
  else self.wins

/-! ## Reading responses and the fold/call decision -/

/-- Python's `str.strip()`: drop leading and trailing whitespace
(character-list model). -/
def pyStrip (s : String) : String :=
  ⟨((s.data.dropWhile Char.isWhitespace).reverse.dropWhile
      Char.isWhitespace).reverse⟩

/-- Python's `str.lower()`: lowercase each character (character-list model;
the responses this server parses are ASCII). -/
def pyLower (s : String) : String :=
  ⟨s.data.map Char.toLower⟩

/-- Processing of one received line: `.strip().lower()`. -/
def procLine (s : String) : String := pyLower (pyStrip s)

/-- `PokerPlayer.read_response`: re-issue the prompt and read again while the
processed line is empty; return the first non-empty processed response.
The argument is the sequence of lines the client sends; `none` models a
client that never sends a non-empty line. -/
def read_response : List String → Option String
  | [] => none
  | l :: rest =>
    let r := procLine l
    if r = "" then read_response rest else some r

/-- The player state assigned by `wait_for_call` given the (already processed,
non-empty) response and the roster length observed after the readiness
barrier: `"f"` folds; anything else advances to `next`, overwritten to SCORE
when exactly one player remains. -/
def wait_for_call_state (next : PokerState) (resp : String) (roster : Nat) :
    PokerState :=
  if resp = "f" then PokerState.FOLD
  else if roster = 1 then PokerState.SCORE
  else next

/-! ## The per-connection dispatch loop, specialised to one remaining player

`handle_client` dispatches on the player's local phase.  When folds have
reduced the roster to a single player, the remaining interleavings are
sequential: every readiness barrier (`while not all(...)`) is immediately
satisfied once that player sets its own state.  `soloStep` is that
specialisation: one dispatch iteration for the single player on the roster.
The action tag records which handler ran. -/

/-- Which handler one dispatch iteration of `handle_client` ran. -/
inductive PAction where
  | lobby
  | table
  | hand
  | bet (next : PokerState)
  | flop
  | turn
  | river
  | score
  | fold
deriving DecidableEq, Repr

/-- `wait_for_call` for the lone seated player `p` (roster `[p]`): read the
response (already processed, passed as `resp`); on `"f"` fold and leave the
roster (which, now empty, returns the dealer to LOBBY); otherwise set the
local state to `next`, pass the (trivially satisfied) barrier, and — the
roster length being 1 — overwrite the local state with SCORE. -/
def waitForCallSolo (resp : String) (next : PokerState) (d : PokerDealer)
    (p : PokerPlayer) : PokerDealer × PokerPlayer :=
  if resp = "f" then
    let p1 := { p with state := PokerState.FOLD }
    ({ d with players := [], state := PokerState.LOBBY }, p1)
  else
    let p1 := { p with state := next }
    let p2 :=
      if ([p1] : List PokerPlayer).length = 1 then
        { p1 with state := PokerState.SCORE }
      else p1
    ({ d with players := [p2] }, p2)

/-- `score_hands` for the lone seated player: compute every seated player's
score, increment the winner's counter, return the local state to LOBBY, pass
the barrier and reset the dealer. -/
def scoreHandsSolo (d : PokerDealer) (p : PokerPlayer) :
    PokerDealer × PokerPlayer :=
  let p1 := { p with
    wins := score_hands_wins p [p] d.table,
    state := PokerState.LOBBY }
  (PokerDealer.reset { d with players := [p1] }, p1)

/-- One iteration of `handle_client`'s dispatch for the single player on the
roster.  Deal handlers mirror `deal_hands` / `deal_flop` / `deal_turn` /
`deal_river` (with their dealer-phase guards and burn cards); `none` models a
deck exhaustion or a phase (LOBBY / TABLE / QUIT) whose handler involves the
roster changing, which is outside the solo fragment. -/
def soloStep (resp : String) (d : PokerDealer) :
    Option (PokerDealer × PokerPlayer × PAction) :=
  match d.players with
  | [p] =>
    match p.state with
    | PokerState.HAND =>
      if d.state = PokerState.HAND then
        match PokerDeck.deal? d.deck with
        | none => none
        | some (c1, k1) =>
          match PokerDeck.deal? k1 with
          | none => none
          | some (c2, k2) =>
            let p1 := { p with
              hand := p.hand ++ [c1, c2], state := PokerState.BETH }
            some ({ d with
              state := PokerState.FLOP, deck := k2, players := [p1] },
              p1, PAction.hand)
      else
        let p1 := { p with state := PokerState.BETH }
        some ({ d with players := [p1] }, p1, PAction.hand)
    | PokerState.BETH =>
      let r := waitForCallSolo resp PokerState.FLOP d p
      some (r.1, r.2, PAction.bet PokerState.FLOP)
    | PokerState.FLOP =>
      if d.state = PokerState.FLOP then
        match PokerDeck.deal? d.deck with
        | none => none
        | some (_, k1) =>
          match PokerDeck.deal? k1 with
          | none => none
          | some (t1, k2) =>
            match PokerDeck.deal? k2 with
            | none => none
            | some (t2, k3) =>
              match PokerDeck.deal? k3 with
              | none => none
              | some (t3, k4) =>
                let p1 := { p with state := PokerState.BETF }
                some ({ d with
                  state := PokerState.TURN, deck := k4,
                  table := [t1, t2, t3], players := [p1] },
                  p1, PAction.flop)
      else
        let p1 := { p with state := PokerState.BETF }
        some ({ d with players := [p1] }, p1, PAction.flop)
    | PokerState.BETF =>
      let r := waitForCallSolo resp PokerState.TURN d p
      some (r.1, r.2, PAction.bet PokerState.TURN)
    | PokerState.TURN =>
      if d.state = PokerState.TURN then
        match PokerDeck.deal? d.deck with
        | none => none
        | some (_, k1) =>
          match PokerDeck.deal? k1 with
          | none => none
          | some (t1, k2) =>
            let p1 := { p with state := PokerState.BETT }
            some ({ d with
              state := PokerState.RIVER, deck := k2,
              table := d.table ++ [t1], players := [p1] },
              p1, PAction.turn)
      else
        let p1 := { p with state := PokerState.BETT }
        some ({ d with players := [p1] }, p1, PAction.turn)
    | PokerState.BETT =>
      let r := waitForCallSolo resp PokerState.RIVER d p
      some (r.1, r.2, PAction.bet PokerState.RIVER)
    | PokerState.RIVER =>
      if d.state = PokerState.RIVER then
        match PokerDeck.deal? d.deck with
        | none => none
        | some (_, k1) =>
          match PokerDeck.deal? k1 with
          | none => none
          | some (t1, k2) =>
            let p1 := { p with state := PokerState.BETR }
            some ({ d with
              state := PokerState.SCORE, deck := k2,
              table := d.table ++ [t1], players := [p1] },
              p1, PAction.river)
      else
        let p1 := { p with state := PokerState.BETR }
        some ({ d with players := [p1] }, p1, PAction.river)
    | PokerState.BETR =>
      let r := waitForCallSolo resp PokerState.SCORE d p
      some (r.1, r.2, PAction.bet PokerState.SCORE)
    | PokerState.SCORE =>
      let r := scoreHandsSolo d p
      some (r.1, r.2, PAction.score)
    | PokerState.FOLD =>
      let p1 := { p with state := PokerState.LOBBY }
      some ({ d with players := [p1] }, p1, PAction.fold)
    | _ => none
  | _ => none

/-! ## Generic lemmas about the overwrite-style folds -/

/-- A guarded overwriting fold leaves its accumulator unchanged when no element
satisfies the guard. -/
theorem foldl_guard_of_forall_not {α : Type} (p : α → Prop) [DecidablePred p]
    (g : α → Nat) (l : List α) (init : Nat) (h : ∀ x ∈ l, ¬ p x) :
    l.foldl (fun s x => if p x then g x else s) init = init := by
  induction l generalizing init with
  | nil => rfl
  | cons a t ih =>
    have ha : ¬ p a := h a (List.mem_cons_self a t)
    simp only [List.foldl_cons, if_neg ha]
    exact ih init (fun x hx => h x (List.mem_cons_of_mem a hx))

/-- A guarded overwriting fold whose guard holds somewhere ends at the
overwrite value of some qualifying element. -/
theorem foldl_guard_of_exists {α : Type} (p : α → Prop) [DecidablePred p]
    (g : α → Nat) (l : List α) (init : Nat) (h : ∃ x ∈ l, p x) :
    ∃ x ∈ l, p x ∧ l.foldl (fun s x => if p x then g x else s) init = g x := by
  induction l generalizing init with
  | nil => simp at h
  | cons a t ih =>
    by_cases ht : ∃ x ∈ t, p x
    · obtain ⟨x, hx, hpx, hval⟩ := ih (if p a then g a else init) ht
      exact ⟨x, List.mem_cons_of_mem a hx, hpx, hval⟩
    · have hall : ∀ x ∈ t, ¬ p x := by
        intro x hx hpx
        exact ht ⟨x, hx, hpx⟩
      have hpa : p a := by
        obtain ⟨x, hx, hpx⟩ := h
        rcases List.mem_cons.mp hx with rfl | hxt
        · exact hpx
        · exact absurd hpx (hall x hxt)
      refine ⟨a, List.mem_cons_self a t, hpa, ?_⟩
      simp only [List.foldl_cons, if_pos hpa]
      exact foldl_guard_of_forall_not p g t (g a) hall

/-- Invariant preservation along a fold. -/
theorem foldl_invariant {α β : Type} (P : β → Prop) (f : β → α → β)
    (l : List α) (init : β) (h0 : P init)
    (hstep : ∀ b a, a ∈ l → P b → P (f b a)) : P (l.foldl f init) := by
  induction l generalizing init with
  | nil => exact h0
  | cons a t ih =>
    exact ih (f init a) (hstep init a (List.mem_cons_self a t) h0)
      (fun b x hx hb => hstep b x (List.mem_cons_of_mem a hx) hb)

/-- A fold whose step is the identity outside a guard equals the fold of the
unguarded step over the filtered list. -/
theorem foldl_guard_filter {α β : Type} (p : α → Prop) [DecidablePred p]
    (f : β → α → β) (l : List α) (init : β) :
    l.foldl (fun s x => if p x then f s x else s) init
      = (l.filter (fun x => decide (p x))).foldl f init := by
  induction l generalizing init with
  | nil => rfl
  | cons a t ih =>
    by_cases hpa : p a
    · simp only [List.foldl_cons, if_pos hpa, List.filter_cons,
        decide_eq_true hpa]
      exact ih (f init a)
    · simp only [List.foldl_cons, if_neg hpa, List.filter_cons,
        decide_eq_false hpa]
      exact ih init

/-- The running maximum is at least its seed. -/
theorem le_foldl_max {α : Type} (f : α → Nat) (l : List α) (init : Nat) :
    init ≤ l.foldl (fun a x => max a (f x)) init := by
  induction l generalizing init with
  | nil => exact Nat.le_refl init
  | cons a t ih => exact Nat.le_trans (Nat.le_max_left init (f a)) (ih _)

/-- The running maximum is at least each listed value. -/
theorem mem_le_foldl_max {α : Type} (f : α → Nat) (l : List α) (x : α)
    (hx : x ∈ l) (init : Nat) :
    f x ≤ l.foldl (fun a y => max a (f y)) init := by
  induction l generalizing init with
  | nil => simp at hx
  | cons a t ih =>
    rcases List.mem_cons.mp hx with rfl | hxt
    · exact Nat.le_trans (Nat.le_max_right init (f x)) (le_foldl_max f t _)
    · exact ih hxt _

/-- The running maximum is bounded by any bound on the seed and all values. -/
theorem foldl_max_le {α : Type} (f : α → Nat) (l : List α) (b : Nat)
    (init : Nat) (h0 : init ≤ b) (h : ∀ x ∈ l, f x ≤ b) :
    l.foldl (fun a x => max a (f x)) init ≤ b := by
  induction l generalizing init with
  | nil => exact h0
  | cons a t ih =>
    exact ih (max init (f a))
      (Nat.max_le.mpr ⟨h0, h a (List.mem_cons_self a t)⟩)
      (fun x hx => h x (List.mem_cons_of_mem a hx))

/-! ## Band lemmas for `score_hand` -/

/-- `getLastD` respects an upper bound on the list and the default. -/
theorem getLastD_le (l : List Nat) (d b : Nat) (hl : ∀ x ∈ l, x ≤ b)
    (hd : d ≤ b) : l.getLastD d ≤ b := by
  induction l generalizing d with
  | nil => exact hd
  | cons a t ih =>
    rw [List.getLastD_cons]
    exact ih a (fun x hx => hl x (List.mem_cons_of_mem a hx))
      (hl a (List.mem_cons_self a t))

/-- Elements of the deduplicated sorted pool are pool elements. -/
theorem mem_of_mem_sorted_dedup {r : Nat} {pool : List Nat}
    (h : r ∈ (List.insertionSort (· ≤ ·) pool).dedup) : r ∈ pool :=
  (List.mem_insertionSort (· ≤ ·)).mp (List.mem_dedup.mp h)

/-- Positional `getD` of an in-range index is a list element. -/
theorem getD_mem_of_lt {l : List Nat} {n : Nat} (h : n < l.length) :
    l.getD n 0 ∈ l := by
  rw [List.getD_eq_getElem l 0 h]
  exact List.getElem_mem h

/-- After the multiples loop the score is below the straight band or above it:
every value the loop can write is `< 80` (pair/two-pair/three-of-a-kind with
rank at most 14) or `≥ 95` (full house, four of a kind). -/
theorem multiplesFold_band (ranks pool : List Nat) (s0 : Nat) (h0 : s0 < 80)
    (hp : ∀ r ∈ pool, r ≤ 14) :
    multiplesFold ranks pool s0 < 80 ∨ 95 ≤ multiplesFold ranks pool s0 := by
  have step : ∀ (st : Nat × Nat × Nat) (r : Nat),
      r ∈ (List.insertionSort (· ≤ ·) pool).dedup →
      (st.1 < 80 ∨ 95 ≤ st.1) →
      ((multiplesStep ranks pool st r).1 < 80 ∨
        95 ≤ (multiplesStep ranks pool st r).1) := by
    intro st r hr hst
    have hr14 : r ≤ 14 := hp r (mem_of_mem_sorted_dedup hr)
    unfold multiplesStep multiplesBody
    split_ifs <;> omega
  exact foldl_invariant (fun st : Nat × Nat × Nat => st.1 < 80 ∨ 95 ≤ st.1)
    (multiplesStep ranks pool) _ _ (Or.inl h0) step

/-- The straight loop leaves the score unchanged when no window qualifies. -/
theorem straightFold_of_none (allR ranks : List Nat) (s : Nat)
    (h : ∀ b ∈ List.range (allR.length - 4), ¬ straightAt allR ranks b = true) :
    straightFold allR ranks s = s :=
  foldl_guard_of_forall_not (fun b => straightAt allR ranks b = true)
    (fun b => 80 + allR.getD (b + 4) 0) _ s h

/-- When some window qualifies, the straight loop ends at `80 + e` for a sorted
pool entry `e` (the top of some qualifying window). -/
theorem straightFold_of_some (allR ranks : List Nat) (s : Nat)
    (h : ∃ b ∈ List.range (allR.length - 4), straightAt allR ranks b = true) :
    ∃ e ∈ allR, straightFold allR ranks s = 80 + e := by
  obtain ⟨b, hb, hq, hval⟩ :=
    foldl_guard_of_exists (fun b => straightAt allR ranks b = true)
      (fun b => 80 + allR.getD (b + 4) 0) _ s h
  have hblt : b < allR.length - 4 := List.mem_range.mp hb
  have h4 : b + 4 < allR.length := by omega
  exact ⟨allR.getD (b + 4) 0, getD_mem_of_lt h4, hval⟩

/-- The flush loop leaves the score unchanged when no private suit reaches a
count of 5 in the pool. -/
theorem flushFold_of_none (suits pool : List Suit) (s : Nat)
    (h : ∀ x ∈ suits, pool.count x < 5) : flushFold suits pool s = s := by
  apply foldl_guard_of_forall_not
    (fun x => x ∈ suits ∧ 5 ≤ pool.count x) (fun _ => 100)
  intro x _ hx
  exact absurd hx.2 (Nat.not_le.mpr (h x hx.1))

/-- The flush loop ends at the flat value 100 whenever some private suit
reaches a count of 5 in the pool. -/
theorem flushFold_of_some (suits pool : List Suit) (s : Nat)
    (h : ∃ x ∈ suits, 5 ≤ pool.count x) : flushFold suits pool s = 100 := by
  obtain ⟨x, hxs, hxc⟩ := h
  have hxp : x ∈ pool := by
    have : 0 < pool.count x := by omega
    exact List.count_pos_iff.mp this
  obtain ⟨y, _, _, hval⟩ :=
    foldl_guard_of_exists (fun z => z ∈ suits ∧ 5 ≤ pool.count z)
      (fun _ => 100) pool.dedup s
      ⟨x, List.mem_dedup.mpr hxp, hxs, hxc⟩
  exact hval

/-- Pool ranks inherit a rank bound on the cards. -/
theorem poolRanks_le (hand table : List PokerCard) (b : Nat)
    (hv : ∀ c ∈ hand ++ table, c.rank ≤ b) :
    ∀ r ∈ poolRanks hand table, r ≤ b := by
  intro r hr
  obtain ⟨c, hc, rfl⟩ := List.mem_map.mp hr
  exact hv c hc

/-- Pool ranks inherit a rank lower bound on the cards. -/
theorem poolRanks_ge (hand table : List PokerCard) (b : Nat)
    (hv : ∀ c ∈ hand ++ table, b ≤ c.rank) :
    ∀ r ∈ poolRanks hand table, b ≤ r := by
  intro r hr
  obtain ⟨c, hc, rfl⟩ := List.mem_map.mp hr
  exact hv c hc

/-- Private-hand ranks inherit a rank bound on the cards. -/
theorem handRanks_le (hand table : List PokerCard) (b : Nat)
    (hv : ∀ c ∈ hand ++ table, c.rank ≤ b) :
    ∀ x ∈ handRanks hand, x ≤ b := by
  intro x hx
  obtain ⟨c, hc, rfl⟩ := List.mem_map.mp ((List.mem_insertionSort _).mp hx)
  exact hv c (List.mem_append_left table hc)

/-- With no qualifying straight window and no qualifying flush suit, the final
score is the multiples-loop score, hence outside `[80, 94]`. -/
theorem score_hand_of_no_straight_no_flush (hand table : List PokerCard)
    (hv : ∀ c ∈ hand ++ table, c.rank ≤ 14)
    (hns : straightQualifies hand table = false)
    (hnf : ∀ s ∈ handSuits hand, (poolSuits hand table).count s < 5) :
    score_hand hand table < 80 ∨ 95 ≤ score_hand hand table := by
  have hnq : ∀ b ∈ List.range ((allRanks hand table).length - 4),
      ¬ straightAt (allRanks hand table) (handRanks hand) b = true := by
    intro b hb hq
    have hqt : straightQualifies hand table = true := by
      unfold straightQualifies
      exact List.any_eq_true.mpr ⟨b, hb, hq⟩
    rw [hns] at hqt
    exact Bool.false_ne_true hqt
  have h0 : (handRanks hand).getLastD 0 < 80 := by
    have : (handRanks hand).getLastD 0 ≤ 14 :=
      getLastD_le _ 0 14 (handRanks_le hand table 14 hv) (by omega)
    omega
  have hm := multiplesFold_band (handRanks hand) (poolRanks hand table)
    ((handRanks hand).getLastD 0) h0 (poolRanks_le hand table 14 hv)
  unfold score_hand
  rw [straightFold_of_none _ _ _ hnq, flushFold_of_none _ _ _ hnf]
  exact hm

/-- With a qualifying straight window and no qualifying flush suit, the final
score is `80 + e` for some pool rank `e`. -/
theorem score_hand_of_straight_no_flush (hand table : List PokerCard)
    (hs : straightQualifies hand table = true)
    (hnf : ∀ s ∈ handSuits hand, (poolSuits hand table).count s < 5) :
    ∃ e ∈ poolRanks hand table, score_hand hand table = 80 + e := by
  have hq : ∃ b ∈ List.range ((allRanks hand table).length - 4),
      straightAt (allRanks hand table) (handRanks hand) b = true := by
    simpa [straightQualifies, List.any_eq_true] using hs
  obtain ⟨e, he, hval⟩ := straightFold_of_some (allRanks hand table)
    (handRanks hand)
    (multiplesFold (handRanks hand) (poolRanks hand table)
      ((handRanks hand).getLastD 0)) hq
  refine ⟨e, (List.mem_insertionSort _).mp he, ?_⟩
  unfold score_hand
  rw [hval, flushFold_of_none _ _ _ hnf]

/-- The guarded multiples loop equals the loop over the filtered rank list. -/
theorem multiplesFold_eq_private (ranks pool : List Nat) (s : Nat) :
    multiplesFold ranks pool s = privateMultiples ranks pool s := by
  unfold multiplesFold privateMultiples
  have heq : multiplesStep ranks pool
      = fun st r => if r ∈ ranks then multiplesBody pool st r else st := rfl
  rw [heq, foldl_guard_filter (fun r => r ∈ ranks) (multiplesBody pool)]

/-- The guarded flush loop equals the loop over the filtered suit list. -/
theorem flushFold_eq_private (suits pool : List Suit) (s : Nat) :
    flushFold suits pool s = privateFlush suits pool s := by
  unfold flushFold privateFlush
  have heq : (fun (sc : Nat) (x : Suit) =>
        if x ∈ suits ∧ 5 ≤ pool.count x then 100 else sc)
      = fun sc x => if x ∈ suits then
          (if 5 ≤ pool.count x then 100 else sc) else sc := by
    funext sc x
    by_cases h1 : x ∈ suits <;> by_cases h2 : 5 ≤ pool.count x <;>
      simp [h1, h2]
  rw [heq, foldl_guard_filter (fun x => x ∈ suits)
    (fun sc x => if 5 ≤ pool.count x then 100 else sc)]

/-- Claim C5: only ranks present in the private hand can qualify for the
pair/two-pair/three-of-a-kind/full-house/four-of-a-kind bands, and only suits
present in the private hand can qualify for the flush band: `score_hand`
coincides with the variant whose multiples and flush loops range only over
private-hand ranks/suits.  In particular a pair formed entirely from community
cards never raises the score: with private hand 2♥ 3♦ against a community
pair of nines the score stays at the high card 3. -/
theorem claim5_private_hand_only :
    (∀ hand table : List PokerCard,
      score_hand hand table = score_hand_private hand table) ∧
    score_hand [⟨2, Suit.hearts⟩, ⟨3, Suit.diamonds⟩]
      [⟨9, Suit.spades⟩, ⟨9, Suit.clubs⟩] = 3 := by
  constructor
  · intro hand table
    unfold score_hand score_hand_private
    rw [multiplesFold_eq_private, flushFold_eq_private]
  · decide

/-- Claim C6: whenever some suit present in the private hand reaches count at
least 5 in the combined pool, `score_hand` returns exactly 100 — the flush
check is the last check and carries no high-card tiebreak. -/
theorem claim6_flush_flat_100 (hand table : List PokerCard)
    (h : ∃ s ∈ handSuits hand, 5 ≤ (poolSuits hand table).count s) :
    score_hand hand table = 100 := by
  unfold score_hand
  exact flushFold_of_some _ _ _ h

/-- Witness for C6: an all-hearts seven-card pool containing an ace-high
private hand still scores the flat 100. -/
theorem claim6_flush_flat_100_witness :
    (∃ s ∈ handSuits [⟨14, Suit.hearts⟩, ⟨7, Suit.hearts⟩],
      5 ≤ (poolSuits [⟨14, Suit.hearts⟩, ⟨7, Suit.hearts⟩]
        [⟨3, Suit.hearts⟩, ⟨9, Suit.hearts⟩, ⟨11, Suit.hearts⟩]).count s) ∧
    score_hand [⟨14, Suit.hearts⟩, ⟨7, Suit.hearts⟩]
      [⟨3, Suit.hearts⟩, ⟨9, Suit.hearts⟩, ⟨11, Suit.hearts⟩] = 100 :=
  ⟨by decide, claim6_flush_flat_100 _ _ (by decide)⟩

/-- `deal()` from a deck with a known last card pops exactly that card. -/
theorem deal?_concat (t : List PokerCard) (a : PokerCard) :
    PokerDeck.deal? (t ++ [a]) = some (a, t) := by
  unfold PokerDeck.deal?
  rw [List.getLast?_concat, List.dropLast_concat]

/-- As many `deal()` calls as the deck holds return the deck reversed and
leave it empty. -/
theorem dealMany_full (l : List PokerCard) :
    PokerDeck.dealMany l.length l = (l.reverse, []) := by
  induction l using List.reverseRecOn with
  | nil => rfl
  | append_singleton t a ih =>
    have hlen : (t ++ [a]).length = t.length + 1 := by simp
    rw [hlen]
    unfold PokerDeck.dealMany
    rw [deal?_concat]
    simp only [ih, List.reverse_append, List.reverse_cons, List.reverse_nil,
      List.nil_append, List.singleton_append]

/-- Claim C7: after any shuffle the deck holds exactly 52 pairwise-distinct
cards with ranks 2–14, and 52 successive deals return 52 distinct cards and
leave the deck empty. -/
theorem claim7_deck (σ : List PokerCard → List PokerCard)
    (hσ : ∀ l, List.Perm (σ l) l) :
    (PokerDeck.shuffle σ).length = 52 ∧ (PokerDeck.shuffle σ).Nodup ∧
    (∀ c ∈ PokerDeck.shuffle σ, 2 ≤ c.rank ∧ c.rank ≤ 14) ∧
    (PokerDeck.dealMany 52 (PokerDeck.shuffle σ)).1.length = 52 ∧
    (PokerDeck.dealMany 52 (PokerDeck.shuffle σ)).1.Nodup ∧
    (PokerDeck.dealMany 52 (PokerDeck.shuffle σ)).2 = [] := by
  have hperm : List.Perm (PokerDeck.shuffle σ) PokerDeck.fresh := hσ _
  have hlen : (PokerDeck.shuffle σ).length = 52 := by
    rw [hperm.length_eq]
    rfl
  have hnodup : (PokerDeck.shuffle σ).Nodup :=
    hperm.nodup_iff.mpr (by decide)
  have hmem : ∀ c ∈ PokerDeck.shuffle σ, 2 ≤ c.rank ∧ c.rank ≤ 14 := by
    intro c hc
    exact (by decide : ∀ c ∈ PokerDeck.fresh, 2 ≤ c.rank ∧ c.rank ≤ 14)
      c (hperm.mem_iff.mp hc)
  have hdeal := dealMany_full (PokerDeck.shuffle σ)
  rw [hlen] at hdeal
  refine ⟨hlen, hnodup, hmem, ?_, ?_, ?_⟩
  · rw [hdeal, List.length_reverse]
    exact hlen
  · rw [hdeal]
    exact List.nodup_reverse.mpr hnodup
  · rw [hdeal]

/-- Witness for C7: the identity permutation oracle satisfies the shuffle
contract and yields the stated deck properties. -/
theorem claim7_deck_witness :
    (∀ l : List PokerCard, List.Perm (id l) l) ∧
    ((PokerDeck.shuffle id).length = 52 ∧ (PokerDeck.shuffle id).Nodup ∧
    (∀ c ∈ PokerDeck.shuffle id, 2 ≤ c.rank ∧ c.rank ≤ 14) ∧
    (PokerDeck.dealMany 52 (PokerDeck.shuffle id)).1.length = 52 ∧
    (PokerDeck.dealMany 52 (PokerDeck.shuffle id)).1.Nodup ∧
    (PokerDeck.dealMany 52 (PokerDeck.shuffle id)).2 = []) :=
  ⟨fun l => List.Perm.refl l, claim7_deck id (fun l => List.Perm.refl l)⟩

/-- Claim C1 counterexample: two players whose hands tie for the maximum
score (both high-card 5) BOTH have their wins counter incremented by
`score_hands` — the claim says neither is. -/
theorem claim1_counterexample :
    score_hand [⟨5, Suit.hearts⟩, ⟨3, Suit.diamonds⟩] []
        = score_hand [⟨5, Suit.spades⟩, ⟨3, Suit.clubs⟩] [] ∧
    score_hands_wins ⟨[⟨5, Suit.hearts⟩, ⟨3, Suit.diamonds⟩], PokerState.SCORE, 0⟩
        [⟨[⟨5, Suit.hearts⟩, ⟨3, Suit.diamonds⟩], PokerState.SCORE, 0⟩,
         ⟨[⟨5, Suit.spades⟩, ⟨3, Suit.clubs⟩], PokerState.SCORE, 0⟩] [] = 1 ∧
    score_hands_wins ⟨[⟨5, Suit.spades⟩, ⟨3, Suit.clubs⟩], PokerState.SCORE, 0⟩
        [⟨[⟨5, Suit.hearts⟩, ⟨3, Suit.diamonds⟩], PokerState.SCORE, 0⟩,
         ⟨[⟨5, Suit.spades⟩, ⟨3, Suit.clubs⟩], PokerState.SCORE, 0⟩] [] = 1 := by
  decide

/-- Claim C1 amended: a player's wins counter is incremented by `score_hands`
exactly when that player's score is greater than or equal to every remaining
player's score; in particular, when two players tie for the maximum, BOTH
tied players' counters are incremented. -/
theorem claim1_amended (self : PokerPlayer) (players : List PokerPlayer)
    (table : List PokerCard) (hmem : self ∈ players) :
    score_hands_wins self players table = self.wins + 1 ↔
      ∀ p ∈ players, score_hand p.hand table ≤ score_hand self.hand table := by
  unfold score_hands_wins
  constructor
  · intro h p hp
    by_cases hc : winner_score players table = score_hand self.hand table
    · rw [← hc]
      exact mem_le_foldl_max (fun q => score_hand q.hand table) players p hp 0
    · rw [if_neg hc] at h
      omega
  · intro h
    have h1 : winner_score players table ≤ score_hand self.hand table :=
      foldl_max_le (fun q => score_hand q.hand table) players _ 0
        (Nat.zero_le _) h
    have h2 : score_hand self.hand table ≤ winner_score players table :=
      mem_le_foldl_max (fun q => score_hand q.hand table) players self hmem 0
    rw [if_pos (Nat.le_antisymm h1 h2)]

/-- Witness for the amended C1: a strict winner among two players is credited. -/
theorem claim1_amended_witness :
    (⟨[⟨14, Suit.hearts⟩, ⟨13, Suit.diamonds⟩], PokerState.SCORE, 3⟩ : PokerPlayer) ∈
      [⟨[⟨14, Suit.hearts⟩, ⟨13, Suit.diamonds⟩], PokerState.SCORE, 3⟩,
       (⟨[⟨5, Suit.spades⟩, ⟨4, Suit.clubs⟩], PokerState.SCORE, 0⟩ : PokerPlayer)] ∧
    (score_hands_wins ⟨[⟨14, Suit.hearts⟩, ⟨13, Suit.diamonds⟩], PokerState.SCORE, 3⟩
      [⟨[⟨14, Suit.hearts⟩, ⟨13, Suit.diamonds⟩], PokerState.SCORE, 3⟩,
       ⟨[⟨5, Suit.spades⟩, ⟨4, Suit.clubs⟩], PokerState.SCORE, 0⟩] [] = 3 + 1 ↔
      ∀ p ∈ [(⟨[⟨14, Suit.hearts⟩, ⟨13, Suit.diamonds⟩], PokerState.SCORE, 3⟩ : PokerPlayer),
             ⟨[⟨5, Suit.spades⟩, ⟨4, Suit.clubs⟩], PokerState.SCORE, 0⟩],
        score_hand p.hand [] ≤
          score_hand [⟨14, Suit.hearts⟩, ⟨13, Suit.diamonds⟩] []) :=
  ⟨by decide, claim1_amended _ _ [] (by decide)⟩

/-- Claim C2 counterexample: with private hand 5♥ 5♦ and community 5♠ 5♣ 6♥
the four-of-a-kind condition holds (rank 5 appears 4 times and is in the
private hand), yet the score is 86 — the straight band over the window
5 5 5 5 6 — not 145: the four-of-a-kind check is NOT last and IS overwritten
by the straight check. -/
theorem claim2_counterexample :
    (poolRanks [⟨5, Suit.hearts⟩, ⟨5, Suit.diamonds⟩]
      [⟨5, Suit.spades⟩, ⟨5, Suit.clubs⟩, ⟨6, Suit.hearts⟩]).count 5 = 4 ∧
    (5 : Nat) ∈ handRanks [⟨5, Suit.hearts⟩, ⟨5, Suit.diamonds⟩] ∧
    score_hand [⟨5, Suit.hearts⟩, ⟨5, Suit.diamonds⟩]
      [⟨5, Suit.spades⟩, ⟨5, Suit.clubs⟩, ⟨6, Suit.hearts⟩] = 86 ∧
    score_hand [⟨5, Suit.hearts⟩, ⟨5, Suit.diamonds⟩]
      [⟨5, Suit.spades⟩, ⟨5, Suit.clubs⟩, ⟨6, Suit.hearts⟩] ≠ 140 + 5 := by
  decide

/-- Claim C2 amended: the checks run in source order — high card, then one
ascending-rank pass classifying pair/two-pair/three-of-a-kind/full-house/
four-of-a-kind, then straight, then flush — with each later matching check
overwriting the score.  Consequently, whenever a straight window qualifies
and no flush does, the result lies in the straight band 82–94 and in
particular is never a four-of-a-kind value `140 + r`, even when a
four-of-a-kind condition held in the earlier pass. -/
theorem claim2_amended (hand table : List PokerCard)
    (hv : ∀ c ∈ hand ++ table, 2 ≤ c.rank ∧ c.rank ≤ 14)
    (hq : ∃ r ∈ handRanks hand, (poolRanks hand table).count r = 4)
    (hs : straightQualifies hand table = true)
    (hnf : ∀ s ∈ handSuits hand, (poolSuits hand table).count s < 5) :
    82 ≤ score_hand hand table ∧ score_hand hand table ≤ 94 ∧
    ∀ r, score_hand hand table ≠ 140 + r := by
  obtain ⟨e, he, hval⟩ := score_hand_of_straight_no_flush hand table hs hnf
  have h2 : 2 ≤ e :=
    poolRanks_ge hand table 2 (fun c hc => (hv c hc).1) e he
  have h14 : e ≤ 14 :=
    poolRanks_le hand table 14 (fun c hc => (hv c hc).2) e he
  refine ⟨by omega, by omega, fun r => by omega⟩

/-- Witness for the amended C2: the quad-fives hand scores 86, inside the
straight band. -/
theorem claim2_amended_witness :
    (∀ c ∈ ([⟨5, Suit.hearts⟩, ⟨5, Suit.diamonds⟩] : List PokerCard) ++
        [⟨5, Suit.spades⟩, ⟨5, Suit.clubs⟩, ⟨6, Suit.hearts⟩],
      2 ≤ c.rank ∧ c.rank ≤ 14) ∧
    (∃ r ∈ handRanks [⟨5, Suit.hearts⟩, ⟨5, Suit.diamonds⟩],
      (poolRanks [⟨5, Suit.hearts⟩, ⟨5, Suit.diamonds⟩]
        [⟨5, Suit.spades⟩, ⟨5, Suit.clubs⟩, ⟨6, Suit.hearts⟩]).count r = 4) ∧
    straightQualifies [⟨5, Suit.hearts⟩, ⟨5, Suit.diamonds⟩]
      [⟨5, Suit.spades⟩, ⟨5, Suit.clubs⟩, ⟨6, Suit.hearts⟩] = true ∧
    (∀ s ∈ handSuits [⟨5, Suit.hearts⟩, ⟨5, Suit.diamonds⟩],
      (poolSuits [⟨5, Suit.hearts⟩, ⟨5, Suit.diamonds⟩]
        [⟨5, Suit.spades⟩, ⟨5, Suit.clubs⟩, ⟨6, Suit.hearts⟩]).count s < 5) ∧
    (82 ≤ score_hand [⟨5, Suit.hearts⟩, ⟨5, Suit.diamonds⟩]
        [⟨5, Suit.spades⟩, ⟨5, Suit.clubs⟩, ⟨6, Suit.hearts⟩] ∧
      score_hand [⟨5, Suit.hearts⟩, ⟨5, Suit.diamonds⟩]
        [⟨5, Suit.spades⟩, ⟨5, Suit.clubs⟩, ⟨6, Suit.hearts⟩] ≤ 94 ∧
      ∀ r, score_hand [⟨5, Suit.hearts⟩, ⟨5, Suit.diamonds⟩]
        [⟨5, Suit.spades⟩, ⟨5, Suit.clubs⟩, ⟨6, Suit.hearts⟩] ≠ 140 + r) :=
  ⟨by decide, by decide, by decide, by decide,
    claim2_amended _ _ (by decide) (by decide) (by decide) (by decide)⟩

/-- Claim C3 counterexample: with private hand 5♥ 8♦ and community 5♦ 6♥ 7♥
the pool has only 4 distinct ranks (5, 6, 7, 8), yet `score_hand` assigns the
straight band value 88 = 80 + 8: the sorted window 5 5 6 7 8 qualifies
because duplicates (adjacent difference 0) are allowed by the check. -/
theorem claim3_counterexample :
    score_hand [⟨5, Suit.hearts⟩, ⟨8, Suit.diamonds⟩]
      [⟨5, Suit.diamonds⟩, ⟨6, Suit.hearts⟩, ⟨7, Suit.hearts⟩] = 88 ∧
    ((poolRanks [⟨5, Suit.hearts⟩, ⟨8, Suit.diamonds⟩]
      [⟨5, Suit.diamonds⟩, ⟨6, Suit.hearts⟩, ⟨7, Suit.hearts⟩]).dedup).length
        = 4 := by
  decide

/-- Claim C3 amended: in the absence of a flush, `score_hand` lands in the
straight band `[80, 94]` exactly when some window of 5 consecutive entries of
the sorted pool ranks (duplicates included) has adjacent differences at most 1
and contains a private-hand rank; 5 consecutive distinct ranks are a special
case, but duplicate ranks can also qualify with fewer than 5 distinct ranks. -/
theorem claim3_amended (hand table : List PokerCard)
    (hv : ∀ c ∈ hand ++ table, c.rank ≤ 14)
    (hnf : ∀ s ∈ handSuits hand, (poolSuits hand table).count s < 5) :
    (80 ≤ score_hand hand table ∧ score_hand hand table ≤ 94) ↔
      straightQualifies hand table = true := by
  constructor
  · intro hband
    by_cases hqt : straightQualifies hand table = true
    · exact hqt
    · have hns : straightQualifies hand table = false := by
        cases h : straightQualifies hand table
        · rfl
        · exact absurd h hqt
      have := score_hand_of_no_straight_no_flush hand table hv hns hnf
      omega
  · intro hqt
    obtain ⟨e, he, hval⟩ := score_hand_of_straight_no_flush hand table hqt hnf
    have h14 : e ≤ 14 := poolRanks_le hand table 14 hv e he
    omega

/-- Witness for the amended C3: the duplicate-window hand satisfies both sides
of the equivalence. -/
theorem claim3_amended_witness :
    (∀ c ∈ ([⟨5, Suit.hearts⟩, ⟨8, Suit.diamonds⟩] : List PokerCard) ++
        [⟨5, Suit.diamonds⟩, ⟨6, Suit.hearts⟩, ⟨7, Suit.hearts⟩],
      c.rank ≤ 14) ∧
    (∀ s ∈ handSuits [⟨5, Suit.hearts⟩, ⟨8, Suit.diamonds⟩],
      (poolSuits [⟨5, Suit.hearts⟩, ⟨8, Suit.diamonds⟩]
        [⟨5, Suit.diamonds⟩, ⟨6, Suit.hearts⟩, ⟨7, Suit.hearts⟩]).count s < 5) ∧
    ((80 ≤ score_hand [⟨5, Suit.hearts⟩, ⟨8, Suit.diamonds⟩]
        [⟨5, Suit.diamonds⟩, ⟨6, Suit.hearts⟩, ⟨7, Suit.hearts⟩] ∧
      score_hand [⟨5, Suit.hearts⟩, ⟨8, Suit.diamonds⟩]
        [⟨5, Suit.diamonds⟩, ⟨6, Suit.hearts⟩, ⟨7, Suit.hearts⟩] ≤ 94) ↔
      straightQualifies [⟨5, Suit.hearts⟩, ⟨8, Suit.diamonds⟩]
        [⟨5, Suit.diamonds⟩, ⟨6, Suit.hearts⟩, ⟨7, Suit.hearts⟩] = true) :=
  ⟨by decide, by decide, claim3_amended _ _ (by decide) (by decide)⟩

/-- Claim C4 counterexample: `reset` from SCORE with one community card on the
table returns to LOBBY and empties the roster but leaves the community card
in place — `len(session.community)` is NOT 0 after round reset. -/
theorem claim4_counterexample :
    (PokerDealer.reset
      ⟨PokerState.SCORE, [], [], [⟨2, Suit.hearts⟩]⟩).state
        = PokerState.LOBBY ∧
    (PokerDealer.reset
      ⟨PokerState.SCORE, [], [], [⟨2, Suit.hearts⟩]⟩).players.length = 0 ∧
    (PokerDealer.reset
      ⟨PokerState.SCORE, [], [], [⟨2, Suit.hearts⟩]⟩).table.length ≠ 0 := by
  decide

/-- Claim C4 amended: the round reset from any non-LOBBY phase clears the
player roster and returns to LOBBY, but does NOT clear the community cards
(or the deck); the stale community list is only replaced wholesale when the
next round's FLOP deal assigns a fresh 3-card list. -/
theorem claim4_amended (d : PokerDealer) (h : d.state ≠ PokerState.LOBBY) :
    (PokerDealer.reset d).state = PokerState.LOBBY ∧
    (PokerDealer.reset d).players = [] ∧
    (PokerDealer.reset d).table = d.table ∧
    (PokerDealer.reset d).deck = d.deck := by
  unfold PokerDealer.reset
  rw [if_pos h]
  exact ⟨rfl, rfl, rfl, rfl⟩

/-- Witness for the amended C4 at a concrete SCORE-phase dealer. -/
theorem claim4_amended_witness :
    ((PokerState.SCORE ≠ PokerState.LOBBY) ∧
    (PokerDealer.reset
      (⟨PokerState.SCORE, [], [], [⟨9, Suit.clubs⟩]⟩ : PokerDealer)).state
        = PokerState.LOBBY ∧
    (PokerDealer.reset
      (⟨PokerState.SCORE, [], [], [⟨9, Suit.clubs⟩]⟩ : PokerDealer)).players = [] ∧
    (PokerDealer.reset
      (⟨PokerState.SCORE, [], [], [⟨9, Suit.clubs⟩]⟩ : PokerDealer)).table
        = [⟨9, Suit.clubs⟩] ∧
    (PokerDealer.reset
      (⟨PokerState.SCORE, [], [], [⟨9, Suit.clubs⟩]⟩ : PokerDealer)).deck = []) := by
  refine ⟨by decide, ?_⟩
  exact claim4_amended ⟨PokerState.SCORE, [], [], [⟨9, Suit.clubs⟩]⟩ (by decide)

/-- The read loop only ever returns a non-empty processed response. -/
theorem read_response_ne_empty (lines : List String) (r : String)
    (h : read_response lines = some r) : r ≠ "" := by
  induction lines with
  | nil => simp [read_response] at h
  | cons l rest ih =>
    unfold read_response at h
    by_cases hl : procLine l = ""
    · exact ih (by simpa [hl] using h)
    · have : some (procLine l) = some r := by simpa [hl] using h
      intro hr
      rw [hr] at this
      exact hl (Option.some.inj this)

/-- Claim C9: an empty line at any prompt is skipped by the read loop — the
prompt is re-issued and the line is never interpreted as a fold — the loop
only returns a non-empty processed response, and at a BET prompt exactly the
response "f" folds while any other non-empty response advances the player
(to the next phase, or straight to SCORE when it is the lone remaining
player). -/
theorem claim9_prompt_loop (l : String) (rest : List String)
    (next : PokerState) (roster : Nat) (r : String)
    (hnext : next ≠ PokerState.FOLD)
    (hr : read_response (l :: rest) = some r) :
    r ≠ "" ∧
    (procLine l = "" → read_response rest = some r) ∧
    (wait_for_call_state next r roster = PokerState.FOLD ↔ r = "f") ∧
    (r ≠ "f" → wait_for_call_state next r roster
        = (if roster = 1 then PokerState.SCORE else next)) ∧
    (r ≠ "f" → wait_for_call_state next r roster ≠ PokerState.FOLD) := by
  refine ⟨read_response_ne_empty _ _ hr, ?_, ?_, ?_, ?_⟩
  · intro hl
    unfold read_response at hr
    simpa [hl] using hr
  · unfold wait_for_call_state
    by_cases hf : r = "f"
    · simp [hf]
    · by_cases h1 : roster = 1 <;> simp [hf, h1, hnext]
  · intro hf
    unfold wait_for_call_state
    rw [if_neg hf]
  · intro hf
    unfold wait_for_call_state
    rw [if_neg hf]
    by_cases h1 : roster = 1
    · rw [if_pos h1]
      intro hcon
      cases hcon
    · rw [if_neg h1]
      exact hnext

/-- Witness for C9: the line " Call " after a blank line reads as "call",
does not fold, and advances to the next phase with two players seated. -/
theorem claim9_prompt_loop_witness :
    read_response ["", " Call "] = some "call" ∧
    ("call" ≠ "" ∧
    (procLine "" = "" → read_response [" Call "] = some "call") ∧
    (wait_for_call_state PokerState.FLOP "call" 2 = PokerState.FOLD ↔
      "call" = "f") ∧
    ("call" ≠ "f" → wait_for_call_state PokerState.FLOP "call" 2
        = (if 2 = 1 then PokerState.SCORE else PokerState.FLOP)) ∧
    ("call" ≠ "f" →
      wait_for_call_state PokerState.FLOP "call" 2 ≠ PokerState.FOLD)) :=
  ⟨by decide, claim9_prompt_loop "" [" Call "] PokerState.FLOP 2 "call"
    (by decide) (by decide)⟩

/-- Claim C10: whenever `add_player` leaves at least `MINIMUM_PLAYERS` (2)
players seated, the dealer moves to the HAND (deal) phase, every seated
player's hand is cleared, and the deck is a freshly reshuffled full 52 — with
no condition whatsoever on the dealer's phase before the call. -/
theorem claim10_add_player (σ : List PokerCard → List PokerCard)
    (d : PokerDealer) (p : PokerPlayer)
    (hσ : ∀ l, List.Perm (σ l) l)
    (hn : MINIMUM_PLAYERS ≤ d.players.length + 1) :
    (d.add_player σ p).state = PokerState.HAND ∧
    (∀ q ∈ (d.add_player σ p).players, q.hand = []) ∧
    (d.add_player σ p).players.length = d.players.length + 1 ∧
    List.Perm (d.add_player σ p).deck PokerDeck.fresh ∧
    (d.add_player σ p).deck.length = 52 := by
  have hcond : ¬ (d.players ++ [p]).length < MINIMUM_PLAYERS := by
    simp only [List.length_append, List.length_cons, List.length_nil]
    omega
  unfold PokerDealer.add_player
  rw [if_neg hcond]
  refine ⟨rfl, ?_, ?_, hσ _, ?_⟩
  · intro q hq
    obtain ⟨x, _, rfl⟩ := List.mem_map.mp hq
    rfl
  · simp
  · show (σ PokerDeck.fresh).length = 52
    rw [(hσ PokerDeck.fresh).length_eq]
    rfl

/-- Witness for C10: a second player joining while the dealer is mid-round at
TURN still flips the table to HAND, clears the seated player's dealt hand and
restores a full deck. -/
theorem claim10_add_player_witness :
    (∀ l : List PokerCard, List.Perm (id l) l) ∧
    MINIMUM_PLAYERS ≤
      ([⟨[⟨7, Suit.clubs⟩, ⟨9, Suit.spades⟩], PokerState.BETT, 2⟩] :
        List PokerPlayer).length + 1 ∧
    ((PokerDealer.add_player id
      ⟨PokerState.TURN,
        [⟨[⟨7, Suit.clubs⟩, ⟨9, Suit.spades⟩], PokerState.BETT, 2⟩],
        [⟨3, Suit.hearts⟩], [⟨4, Suit.diamonds⟩]⟩
      ⟨[], PokerState.TABLE, 0⟩).state = PokerState.HAND ∧
    (∀ q ∈ (PokerDealer.add_player id
      ⟨PokerState.TURN,
        [⟨[⟨7, Suit.clubs⟩, ⟨9, Suit.spades⟩], PokerState.BETT, 2⟩],
        [⟨3, Suit.hearts⟩], [⟨4, Suit.diamonds⟩]⟩
      ⟨[], PokerState.TABLE, 0⟩).players, q.hand = []) ∧
    (PokerDealer.add_player id
      ⟨PokerState.TURN,
        [⟨[⟨7, Suit.clubs⟩, ⟨9, Suit.spades⟩], PokerState.BETT, 2⟩],
        [⟨3, Suit.hearts⟩], [⟨4, Suit.diamonds⟩]⟩
      ⟨[], PokerState.TABLE, 0⟩).players.length =
      ([⟨[⟨7, Suit.clubs⟩, ⟨9, Suit.spades⟩], PokerState.BETT, 2⟩] :
        List PokerPlayer).length + 1 ∧
    List.Perm (PokerDealer.add_player id
      ⟨PokerState.TURN,
        [⟨[⟨7, Suit.clubs⟩, ⟨9, Suit.spades⟩], PokerState.BETT, 2⟩],
        [⟨3, Suit.hearts⟩], [⟨4, Suit.diamonds⟩]⟩
      ⟨[], PokerState.TABLE, 0⟩).deck PokerDeck.fresh ∧
    (PokerDealer.add_player id
      ⟨PokerState.TURN,
        [⟨[⟨7, Suit.clubs⟩, ⟨9, Suit.spades⟩], PokerState.BETT, 2⟩],
        [⟨3, Suit.hearts⟩], [⟨4, Suit.diamonds⟩]⟩
      ⟨[], PokerState.TABLE, 0⟩).deck.length = 52) :=
  ⟨fun l => List.Perm.refl l, by decide,
    claim10_add_player id _ _ (fun l => List.Perm.refl l) (by decide)⟩

/-- Whether a phase is one of the four BET phases. -/
def isBet : PokerState → Bool
  | PokerState.BETH => true
  | PokerState.BETF => true
  | PokerState.BETT => true
  | PokerState.BETR => true
  | _ => false

/-- The `next_state` argument `handle_client` passes to `wait_for_call` at
each BET phase. -/
def betNext : PokerState → PokerState
  | PokerState.BETH => PokerState.FLOP
  | PokerState.BETF => PokerState.TURN
  | PokerState.BETT => PokerState.RIVER
  | PokerState.BETR => PokerState.SCORE
  | s => s

/-- With a single seated player, `score_hands` always credits that player:
its own score is the running maximum. -/
theorem score_hands_wins_solo (q : PokerPlayer) (t : List PokerCard) :
    score_hands_wins q [q] t = q.wins + 1 := by
  unfold score_hands_wins winner_score
  rw [List.foldl_cons, List.foldl_nil,
    Nat.max_eq_right (Nat.zero_le _), if_pos rfl]

/-- Claim C8 counterexample: with folds having left exactly one player at a
BET prompt, that remaining player may ALSO respond "f"; then the fold branch
runs: the player ends in FOLD with its wins counter NOT incremented (still 0),
the roster empties and the dealer returns to LOBBY — the round ends with no
SCORE phase and no win credited to anyone. -/
theorem claim8_counterexample :
    soloStep "f" ⟨PokerState.FLOP,
        [⟨[⟨14, Suit.hearts⟩, ⟨10, Suit.spades⟩], PokerState.BETH, 0⟩], [], []⟩
      = some (⟨PokerState.LOBBY, [], [], []⟩,
          ⟨[⟨14, Suit.hearts⟩, ⟨10, Suit.spades⟩], PokerState.FOLD, 0⟩,
          PAction.bet PokerState.FLOP) := by
  decide

/-- Claim C8 amended: if folds reduce the roster to exactly one player during
a BET phase, then — provided the remaining player answers its pending BET
prompt with anything other than fold — the barrier passes immediately, the
roster-length-1 check routes the player straight to SCORE, and the SCORE
handler credits it the round (wins + 1) and ends the round back in LOBBY.
Exactly two dispatch iterations run, tagged `bet` and `score`: no flop/turn/
river deal and no further BET prompt occurs before the round ends.  (If the
remaining player folds instead, no one is credited — see the
counterexample.) -/
theorem claim8_amended (d : PokerDealer) (p : PokerPlayer)
    (resp resp2 : String) (hd : d.players = [p])
    (hds : d.state ≠ PokerState.LOBBY)
    (hb : isBet p.state = true) (hr : resp ≠ "f") :
    soloStep resp d
      = some ({ d with players := [{ p with state := PokerState.SCORE }] },
          { p with state := PokerState.SCORE },
          PAction.bet (betNext p.state)) ∧
    soloStep resp2 { d with players := [{ p with state := PokerState.SCORE }] }
      = some (⟨PokerState.LOBBY, [], d.deck, d.table⟩,
          { p with state := PokerState.LOBBY, wins := p.wins + 1 },
          PAction.score) := by
  constructor
  · cases hps : p.state <;> rw [hps] at hb <;>
      first
      | exact absurd hb (by decide)
      | · unfold soloStep
          rw [hd]
          simp [hps, waitForCallSolo, hr, betNext]
  · unfold soloStep
    simp [scoreHandsSolo, score_hands_wins_solo, PokerDealer.reset, hds]

/-- Witness for the amended C8: a lone ace-high player at the post-hand BET
prompt answering "call" is routed to SCORE and credited the win in two
dispatch iterations. -/
theorem claim8_amended_witness :
    ((⟨PokerState.FLOP,
        [⟨[⟨14, Suit.hearts⟩, ⟨10, Suit.spades⟩], PokerState.BETH, 0⟩],
        [], []⟩ : PokerDealer).players
      = [⟨[⟨14, Suit.hearts⟩, ⟨10, Suit.spades⟩], PokerState.BETH, 0⟩]) ∧
    ((PokerState.FLOP : PokerState) ≠ PokerState.LOBBY) ∧
    isBet PokerState.BETH = true ∧
    ("call" ≠ "f") ∧
    (soloStep "call" ⟨PokerState.FLOP,
        [⟨[⟨14, Suit.hearts⟩, ⟨10, Suit.spades⟩], PokerState.BETH, 0⟩],
        [], []⟩
      = some (⟨PokerState.FLOP,
          [⟨[⟨14, Suit.hearts⟩, ⟨10, Suit.spades⟩], PokerState.SCORE, 0⟩],
          [], []⟩,
          ⟨[⟨14, Suit.hearts⟩, ⟨10, Suit.spades⟩], PokerState.SCORE, 0⟩,
          PAction.bet (betNext PokerState.BETH)) ∧
    soloStep "x" ⟨PokerState.FLOP,
        [⟨[⟨14, Suit.hearts⟩, ⟨10, Suit.spades⟩], PokerState.SCORE, 0⟩],
        [], []⟩
      = some (⟨PokerState.LOBBY, [], [], []⟩,
          ⟨[⟨14, Suit.hearts⟩, ⟨10, Suit.spades⟩], PokerState.LOBBY, 0 + 1⟩,
          PAction.score)) :=
  ⟨rfl, by decide, by decide, by decide,
    claim8_amended
      ⟨PokerState.FLOP,
        [⟨[⟨14, Suit.hearts⟩, ⟨10, Suit.spades⟩], PokerState.BETH, 0⟩],
        [], []⟩
      ⟨[⟨14, Suit.hearts⟩, ⟨10, Suit.spades⟩], PokerState.BETH, 0⟩
      "call" "x" rfl (by decide) (by decide) (by decide)⟩
